import Mathlib

/-!
Verification development for the loop-counter engine
(`src/loop_counter_streamlit.py`).

The engine is shallowly embedded: a stop-visit record is a `Record`
(timestamps are whole seconds on one clock, so `Nat`; vehicle, block,
route and trip identifiers are `Nat`; stop names are `String`); the
mileage configuration is a rational.  Pandas operations are rendered as
list operations: `sort_values` (a deterministic sort; we use the stable
`List.insertionSort` with a non-strict key order, matching the stable
ordering the data pipeline relies on), `groupby` (sorted unique keys,
each group the in-order sublist with that key), row iteration as folds.
`Loop_Completed_At` is stored in the source as a formatted
whole-second string and re-parsed wherever it is used for arithmetic or
sorting, so it is modelled directly by the completion timestamp.
-/

structure Record where
  vehicle : Nat
  block : Nat
  route : Nat
  trip : Nat
  stopName : String
  direction : String
  timestamp : Nat
deriving DecidableEq

/-- A row of the loop-events table built by `get_loop_events`
(source lines 357-369 and 402-414). -/
structure LoopEvent where
  vehicle : Nat
  block : Nat
  route : Nat
  trip : Nat
  start_stop : String
  end_stop : String
  loop_completed_at : Nat
  loop_count : Nat
  total_miles : Rat
  trip_flip : Bool
  end_trip : Nat
deriving DecidableEq

/-- Per-trip loop-detection state (source line 320 and 330). -/
structure TripState where
  waiting_for_end : Bool
  start_time : Option Nat
  start_index : Option Nat
deriving DecidableEq

/-- `get_service_day` (source lines 308-313): the service day of a
timestamp is its calendar date when the hour is at least 6, and the
previous calendar date otherwise.  Days are counted as integers so the
previous day always exists. -/
def get_service_day (t : Nat) : Int :=
  if 6 ≤ t / 3600 % 24 then (t / 86400 : Nat) else (t / 86400 : Nat) - 1

/-- The daily-loop count scan (source lines 351-353 and 396-398):
the number of already-emitted events of the same vehicle whose
completion falls on the same service day. -/
def dailyLoops (events : List LoopEvent) (v : Nat) (d : Int) : Nat :=
  (events.filter (fun e =>
    decide (e.vehicle = v ∧ get_service_day e.loop_completed_at = d))).length

/-- Python `round(x, 2)` on the exact rational value. -/
def round2 (q : Rat) : Rat := round (q * 100) / 100

/-- Append one loop event to the accumulated list, computing its
`Loop_Count` and `Total_Miles` exactly as both emission sites do
(source lines 350-369 and 395-414). -/
def appendEvent (loop_mileage : Rat) (events : List LoopEvent)
    (vehicle block route trip : Nat) (start_stop end_stop : String)
    (completedAt : Nat) (tripFlip : Bool) (endTrip : Nat) : List LoopEvent :=
  let service_day := get_service_day completedAt
  let loop_count := dailyLoops events vehicle service_day + 1
  events ++ [{ vehicle := vehicle, block := block, route := route,
               trip := trip, start_stop := start_stop, end_stop := end_stop,
               loop_completed_at := completedAt, loop_count := loop_count,
               total_miles := round2 ((loop_count : Rat) * loop_mileage),
               trip_flip := tripFlip, end_trip := endTrip }]

/-- Lookup in the `trip_loops` dictionary. -/
def get_trip (m : List (Nat × TripState)) (t : Nat) : TripState :=
  match m.find? (fun p => p.1 == t) with
  | some p => p.2
  | none => ⟨false, none, none⟩

/-- `if current_trip not in trip_loops: trip_loops[current_trip] = {...}`
(source lines 329-330); a Python dict keeps insertion order, so a fresh
key is appended at the end. -/
def ensure_trip (m : List (Nat × TripState)) (t : Nat) : List (Nat × TripState) :=
  if (m.find? (fun p => p.1 == t)).isSome then m else m ++ [(t, ⟨false, none, none⟩)]

/-- In-place update of one key of the `trip_loops` dictionary. -/
def set_trip (m : List (Nat × TripState)) (t : Nat) (st : TripState) :
    List (Nat × TripState) :=
  m.map (fun p => if p.1 == t then (t, st) else p)

/-- One step of the per-partition scan (source lines 322-369), acting on
the pair (trip_loops, loop_events) at the enumerated row `p = (i, row)`. -/
def scan_step (loop_mileage : Rat) (start_stop end_stop : String)
    (vehicle block route : Nat)
    (st : List (Nat × TripState) × List LoopEvent) (p : Nat × Record) :
    List (Nat × TripState) × List LoopEvent :=
  let trip_loops := ensure_trip st.1 p.2.trip
  if p.2.stopName = start_stop then
    (set_trip trip_loops p.2.trip ⟨true, some p.2.timestamp, some p.1⟩, st.2)
  else if p.2.stopName = end_stop ∧ (get_trip trip_loops p.2.trip).waiting_for_end = true then
    (set_trip trip_loops p.2.trip
       { get_trip trip_loops p.2.trip with waiting_for_end := false },
     appendEvent loop_mileage st.2 vehicle block route p.2.trip
       start_stop end_stop p.2.timestamp false p.2.trip)
  else
    (trip_loops, st.2)

/-- Trip-flip recovery for one entry of `trip_loops`
(source lines 372-417): if the trip is still waiting, look for the first
later record whose trip differs; emit a flip event exactly when that
record's stop is the end stop. -/
def recovery_step (loop_mileage : Rat) (start_stop end_stop : String)
    (vehicle block route : Nat) (group_sorted : List Record)
    (events : List LoopEvent) (entry : Nat × TripState) : List LoopEvent :=
  let trip_id := entry.1
  let trip_state := entry.2
  if trip_state.waiting_for_end = true then
    match trip_state.start_index with
    | none => events
    | some start_idx =>
      match (group_sorted.enum.drop (start_idx + 1)).find?
          (fun p => p.2.trip != trip_id) with
      | none => events
      | some p =>
        if p.2.stopName = end_stop then
          appendEvent loop_mileage events vehicle block route trip_id
            start_stop end_stop p.2.timestamp true p.2.trip
        else events
  else events

/-- `Timestamp`-only order used for the per-group sort (source line 317). -/
def tsLe (a b : Record) : Prop := a.timestamp ≤ b.timestamp

instance : DecidableRel tsLe := fun a b =>
  inferInstanceAs (Decidable (a.timestamp ≤ b.timestamp))

/-- (`Block`, `Timestamp`) order used for the whole-frame sort
(source lines 245 and 305). -/
def recLe (a b : Record) : Prop :=
  a.block < b.block ∨ (a.block = b.block ∧ a.timestamp ≤ b.timestamp)

instance : DecidableRel recLe := fun a b =>
  inferInstanceAs (Decidable (a.block < b.block ∨ (a.block = b.block ∧ a.timestamp ≤ b.timestamp)))

/-- Lexicographic order on (`Vehicle`, `Block`, `Route`) group keys, the
order in which pandas `groupby` yields the groups (source line 316). -/
def keyLe (a b : Nat × Nat × Nat) : Prop :=
  a.1 < b.1 ∨ (a.1 = b.1 ∧ (a.2.1 < b.2.1 ∨ (a.2.1 = b.2.1 ∧ a.2.2 ≤ b.2.2)))

instance : DecidableRel keyLe := fun a b =>
  inferInstanceAs (Decidable (a.1 < b.1 ∨ (a.1 = b.1 ∧ (a.2.1 < b.2.1 ∨ (a.2.1 = b.2.1 ∧ a.2.2 ≤ b.2.2)))))

/-- (`Block`, `Loop_Completed_At`) order of the final events table
(source lines 422-425). -/
def evLe (a b : LoopEvent) : Prop :=
  a.block < b.block ∨ (a.block = b.block ∧ a.loop_completed_at ≤ b.loop_completed_at)

instance : DecidableRel evLe := fun a b =>
  inferInstanceAs (Decidable (a.block < b.block ∨ (a.block = b.block ∧ a.loop_completed_at ≤ b.loop_completed_at)))

/-- The `groupby` key of a record. -/
def recKey (r : Record) : Nat × Nat × Nat := (r.vehicle, r.block, r.route)

/-- Processing of one (`Vehicle`, `Block`, `Route`) partition
(source lines 316-417): sort the group by timestamp, run the scan over
the enumerated rows, then run trip-flip recovery over the trip states in
insertion order.  The accumulated global event list is threaded through. -/
def process_group (loop_mileage : Rat) (start_stop end_stop : String)
    (vehicle block route : Nat) (group : List Record)
    (events0 : List LoopEvent) : List LoopEvent :=
  let group_sorted := List.insertionSort tsLe group
  let scanned := group_sorted.enum.foldl
    (scan_step loop_mileage start_stop end_stop vehicle block route) ([], events0)
  scanned.1.foldl
    (recovery_step loop_mileage start_stop end_stop vehicle block route group_sorted)
    scanned.2

/-- The raw event list accumulated by `get_loop_events` before its final
sort (source lines 301-417): sort the frame by (`Block`, `Timestamp`),
partition it by (`Vehicle`, `Block`, `Route`) with the group keys in
ascending order, and process the partitions in that order. -/
def raw_loop_events (df : List Record) (loop_mileage : Rat)
    (start_stop end_stop : String) : List LoopEvent :=
  let df_sorted := List.insertionSort recLe df
  let keys := List.insertionSort keyLe (df_sorted.map recKey).dedup
  keys.foldl (fun events k =>
    process_group loop_mileage start_stop end_stop k.1 k.2.1 k.2.2
      (df_sorted.filter (fun r => decide (recKey r = k))) events) []

/-- `get_loop_events` (source lines 301-427): the raw event list, sorted
by (`Block`, `Loop_Completed_At`). -/
def get_loop_events (df : List Record) (loop_mileage : Rat)
    (start_stop end_stop : String) : List LoopEvent :=
  List.insertionSort evLe (raw_loop_events df loop_mileage start_stop end_stop)

/-- The aggregate summary row appended by `save_loop_events`
(source lines 439-451); fields that do not apply hold the empty string. -/
structure TotalRow where
  vehicle : String
  block : String
  route : String
  trip : String
  start_stop : String
  end_stop : String
  loop_completed_at : String
  loop_count : Nat
  total_miles : Rat
  trip_flip : String
  end_trip : String
deriving DecidableEq

/-- The final table produced by `save_loop_events`: the event rows
followed by the single summary row. -/
structure FinalTable where
  events : List LoopEvent
  total_row : TotalRow
deriving DecidableEq

/-- `save_loop_events` (source lines 429-457): append the `"Total"`
summary row to the events table. -/
def save_loop_events (loop_events : List LoopEvent) (loop_mileage : Rat) :
    FinalTable :=
  let total_loops := loop_events.length
  let total_miles := round2 ((total_loops : Rat) * loop_mileage)
  let trip_flip_count := (loop_events.filter (fun e => e.trip_flip)).length
  { events := loop_events,
    total_row := { vehicle := "Total", block := "", route := "", trip := "",
                   start_stop := "", end_stop := "", loop_completed_at := "",
                   loop_count := total_loops, total_miles := total_miles,
                   trip_flip := Nat.repr trip_flip_count ++ " trip flips",
                   end_trip := "" } }

/-- C5: for every timestamp, the derived service day equals the
timestamp's calendar date when the hour is at least 6, and the previous
calendar date otherwise; in particular a completion at 05:59:59 belongs
to the previous calendar date's service day and one at 06:00:00 belongs
to the current calendar date. -/
theorem claim_C5 (d s : Nat) (h : s < 86400) :
    (get_service_day (86400 * d + s) = if 6 ≤ s / 3600 then (d : Int) else (d : Int) - 1)
    ∧ get_service_day (86400 * d + 21599) = (d : Int) - 1
    ∧ get_service_day (86400 * d + 21600) = (d : Int) := by
  unfold get_service_day
  refine ⟨?_, ?_, ?_⟩ <;> split_ifs <;> omega

/-- Witness for C5, at calendar day 1 and second-of-day 0. -/
theorem claim_C5_witness :
    (0 : Nat) < 86400 ∧
    ((get_service_day (86400 * 1 + 0) = if 6 ≤ 0 / 3600 then (1 : Int) else (1 : Int) - 1)
     ∧ get_service_day (86400 * 1 + 21599) = (1 : Int) - 1
     ∧ get_service_day (86400 * 1 + 21600) = (1 : Int)) :=
  ⟨by norm_num, claim_C5 1 0 (by norm_num)⟩

/-- C2 counterexample: the pipeline performs no duplicate collapsing.
Two pairs of records sharing (vehicle, block, route, timestamp,
stop_name) and differing only in `trip` yield two loop events, while the
collapsed (first-seen) input yields one — the loop count is doubled. -/
theorem claim_C2_counterexample :
    (get_loop_events [⟨7, 3, 55, 1, "S", "L", 1000⟩, ⟨7, 3, 55, 2, "S", "L", 1000⟩,
        ⟨7, 3, 55, 1, "E", "L", 2000⟩, ⟨7, 3, 55, 2, "E", "L", 2000⟩] 4 "S" "E").length = 2
    ∧ (get_loop_events [⟨7, 3, 55, 1, "S", "L", 1000⟩,
        ⟨7, 3, 55, 1, "E", "L", 2000⟩] 4 "S" "E").length = 1 := by
  exact ⟨rfl, rfl⟩

/-- C2 amended: no duplicate suppression is performed before loop
detection; records sharing (vehicle, block, route, timestamp, stop_name)
but differing in `trip` are all retained, each can arm and complete a
loop, and such duplicates double the loop count. -/
theorem claim_C2_amended :
    (get_loop_events [⟨7, 3, 55, 1, "S", "L", 1000⟩, ⟨7, 3, 55, 2, "S", "L", 1000⟩,
        ⟨7, 3, 55, 1, "E", "L", 2000⟩, ⟨7, 3, 55, 2, "E", "L", 2000⟩] 4 "S" "E").map
      (fun e => (e.vehicle, e.trip, e.loop_completed_at, e.loop_count, e.trip_flip)) =
      [(7, 1, 2000, 1, false), (7, 2, 2000, 2, false)]
    ∧ (get_loop_events [⟨7, 3, 55, 1, "S", "L", 1000⟩,
        ⟨7, 3, 55, 1, "E", "L", 2000⟩] 4 "S" "E").map
      (fun e => (e.vehicle, e.trip, e.loop_completed_at, e.loop_count, e.trip_flip)) =
      [(7, 1, 2000, 1, false)] := by
  exact ⟨by decide, by decide⟩

/-- C3 counterexample: on the three records of the claimed trip-flip
scenario (10:00 = 36000 s, 10:05 = 36300 s, 10:10 = 36600 s) the engine
emits no event at all, not one: recovery inspects only the first record
whose trip differs from the waiting trip, here the 10:05 record at the
other stop. -/
theorem claim_C3_counterexample :
    get_loop_events [⟨7, 3, 55, 10, "S", "L", 36000⟩, ⟨7, 3, 55, 11, "O", "L", 36300⟩,
        ⟨7, 3, 55, 11, "E", "L", 36600⟩] 4 "S" "E" = []
    ∧ (get_loop_events [⟨7, 3, 55, 10, "S", "L", 36000⟩, ⟨7, 3, 55, 11, "O", "L", 36300⟩,
        ⟨7, 3, 55, 11, "E", "L", 36600⟩] 4 "S" "E").length ≠ 1 := by
  exact ⟨rfl, by decide⟩

/-- C3 amended: the scenario as stated emits no event, because trip-flip
recovery requires the first record of the differing trip to be the end
stop; if the intermediate 10:05 record instead still carries the waiting
trip (trip 10), the engine emits exactly one LoopEvent with
start_trip = 10, end_trip = 11, trip_flip = true, completed_at = 10:10. -/
theorem claim_C3_amended :
    get_loop_events [⟨7, 3, 55, 10, "S", "L", 36000⟩, ⟨7, 3, 55, 11, "O", "L", 36300⟩,
        ⟨7, 3, 55, 11, "E", "L", 36600⟩] 4 "S" "E" = []
    ∧ (get_loop_events [⟨7, 3, 55, 10, "S", "L", 36000⟩, ⟨7, 3, 55, 10, "O", "L", 36300⟩,
        ⟨7, 3, 55, 11, "E", "L", 36600⟩] 4 "S" "E").map
      (fun e => (e.trip, e.end_trip, e.loop_completed_at, e.loop_count, e.trip_flip)) =
      [(10, 11, 36600, 1, true)] := by
  exact ⟨rfl, by decide⟩

/-- C4 counterexample: with start_stop = end_stop = "A", a trip visiting
the stop twice produces no event: every visit matches the start branch,
which shadows the completion branch, so the loop never closes through
the normal path. -/
theorem claim_C4_counterexample :
    get_loop_events [⟨7, 3, 55, 1, "A", "L", 100⟩, ⟨7, 3, 55, 1, "A", "L", 200⟩]
      4 "A" "A" = [] := by
  exact rfl

/-- C6 counterexample: one vehicle on two blocks in one service day.
Block 1 is processed first (group keys ascend) and its 18:00 completion
gets loop_count 1; block 2's 10:00 completion is processed later and
gets loop_count 2, although it is chronologically earlier — loop_count
does not follow global completed_at order. -/
theorem claim_C6_counterexample :
    ¬ (∀ e1 ∈ get_loop_events [⟨7, 1, 55, 1, "S", "L", 64800⟩, ⟨7, 1, 55, 1, "E", "L", 66600⟩,
          ⟨7, 2, 55, 2, "S", "L", 36000⟩, ⟨7, 2, 55, 2, "E", "L", 37800⟩] 4 "S" "E",
        ∀ e2 ∈ get_loop_events [⟨7, 1, 55, 1, "S", "L", 64800⟩, ⟨7, 1, 55, 1, "E", "L", 66600⟩,
          ⟨7, 2, 55, 2, "S", "L", 36000⟩, ⟨7, 2, 55, 2, "E", "L", 37800⟩] 4 "S" "E",
        e1.vehicle = e2.vehicle →
        get_service_day e1.loop_completed_at = get_service_day e2.loop_completed_at →
        e1.loop_completed_at < e2.loop_completed_at → e1.loop_count < e2.loop_count) := by
  decide

instance : IsTotal LoopEvent evLe := ⟨fun a b => by unfold evLe; omega⟩

instance : IsTrans LoopEvent evLe := ⟨fun a b c hab hbc => by unfold evLe at *; omega⟩

instance : IsTotal Record recLe := ⟨fun a b => by unfold recLe; omega⟩

instance : IsTrans Record recLe := ⟨fun a b c hab hbc => by unfold recLe at *; omega⟩

instance : IsTotal Record tsLe := ⟨fun a b => by unfold tsLe; omega⟩

instance : IsTrans Record tsLe := ⟨fun a b c hab hbc => by unfold tsLe at *; omega⟩

instance : IsTotal (Nat × Nat × Nat) keyLe := ⟨fun a b => by unfold keyLe; omega⟩

instance : IsTrans (Nat × Nat × Nat) keyLe := ⟨fun a b c hab hbc => by unfold keyLe at *; omega⟩

/-- A default event used only as the fallback of `List.getD`. -/
def dummyEvent : LoopEvent := ⟨0, 0, 0, 0, "", "", 0, 0, 0, false, 0⟩

/-- C9: the final output lists the LoopEvents ordered by block and then
by completed_at ascending, followed by one summary row whose vehicle
field is the literal "Total", whose Loop_Count equals the total number
of events, whose Total_Miles equals round(total number of events ×
configured loop mileage, 2), and whose Trip_Flip field is the string
"n trip flips" where n is the number of events with trip_flip true. -/
theorem claim_C9 (df : List Record) (mil : Rat) (sS eS : String) :
    (save_loop_events (get_loop_events df mil sS eS) mil).events = get_loop_events df mil sS eS
    ∧ List.Sorted evLe (save_loop_events (get_loop_events df mil sS eS) mil).events
    ∧ (save_loop_events (get_loop_events df mil sS eS) mil).total_row.vehicle = "Total"
    ∧ (save_loop_events (get_loop_events df mil sS eS) mil).total_row.loop_count
        = (get_loop_events df mil sS eS).length
    ∧ (save_loop_events (get_loop_events df mil sS eS) mil).total_row.total_miles
        = round2 (((get_loop_events df mil sS eS).length : Rat) * mil)
    ∧ (save_loop_events (get_loop_events df mil sS eS) mil).total_row.trip_flip
        = Nat.repr ((get_loop_events df mil sS eS).filter (fun e => e.trip_flip)).length
            ++ " trip flips" :=
  ⟨rfl, List.sorted_insertionSort evLe _, rfl, rfl, rfl, rfl⟩

/-- Any accumulator-preserving step lifts to the fold. -/
theorem foldl_preserve {α : Type _} {β : Type _} {P : β → Prop} {f : β → α → β}
    (hf : ∀ s a, P s → P (f s a)) :
    ∀ (l : List α) (s : β), P s → P (l.foldl f s) := by
  intro l
  induction l with
  | nil => intro s hs; exact hs
  | cons a l ih => intro s hs; rw [List.foldl_cons]; exact ih _ (hf s a hs)

/-- Membership in the result of `appendEvent` is membership in the old
list or equality with the freshly built event. -/
theorem mem_appendEvent {mil : Rat} {events : List LoopEvent} {v b rt tr : Nat}
    {sS eS : String} {ts : Nat} {fl : Bool} {etr : Nat} {e : LoopEvent}
    (h : e ∈ appendEvent mil events v b rt tr sS eS ts fl etr) :
    e ∈ events ∨
      e = { vehicle := v, block := b, route := rt, trip := tr, start_stop := sS,
            end_stop := eS, loop_completed_at := ts,
            loop_count := dailyLoops events v (get_service_day ts) + 1,
            total_miles := round2 (((dailyLoops events v (get_service_day ts) + 1 : Nat) : Rat) * mil),
            trip_flip := fl, end_trip := etr } := by
  unfold appendEvent at h
  dsimp only at h
  rcases List.mem_append.mp h with h1 | h1
  · exact Or.inl h1
  · exact Or.inr (List.mem_singleton.mp h1)

/-- When the configured start and end stops are the same string, the
start branch of the scan shadows the completion branch, so a scan step
never emits an event. -/
theorem scan_step_snd_of_eq (mil : Rat) (s : String) (v b rt : Nat)
    (st : List (Nat × TripState) × List LoopEvent) (p : Nat × Record) :
    (scan_step mil s s v b rt st p).2 = st.2 := by
  unfold scan_step
  dsimp only
  by_cases hs : p.2.stopName = s
  · rw [if_pos hs]
  · rw [if_neg hs, if_neg (fun hc => hs hc.1)]

/-- With equal start and end stops the whole scan leaves the event list
untouched. -/
theorem scan_fold_snd_of_eq (mil : Rat) (s : String) (v b rt : Nat) :
    ∀ (l : List (Nat × Record)) (st : List (Nat × TripState) × List LoopEvent),
      (l.foldl (scan_step mil s s v b rt) st).2 = st.2 := by
  intro l
  induction l with
  | nil => intro st; rfl
  | cons a l ih => intro st; rw [List.foldl_cons, ih, scan_step_snd_of_eq]

/-- A recovery step adds at most one event, and any added event is a
trip-flip event for the entry's trip. -/
theorem recovery_step_mem {mil : Rat} {sS eS : String} {v b rt : Nat} {g : List Record}
    {events : List LoopEvent} {entry : Nat × TripState} {e : LoopEvent}
    (h : e ∈ recovery_step mil sS eS v b rt g events entry) :
    e ∈ events ∨ (e.trip_flip = true ∧ e.trip = entry.1) := by
  unfold recovery_step at h
  dsimp only at h
  split at h
  · split at h
    · exact Or.inl h
    · split at h
      · exact Or.inl h
      · split at h
        · rcases mem_appendEvent h with h1 | h1
          · exact Or.inl h1
          · subst h1; exact Or.inr ⟨rfl, rfl⟩
        · exact Or.inl h
  · exact Or.inl h

/-- Recovery preserves "every event is a trip-flip event". -/
theorem recovery_fold_flips {mil : Rat} {sS eS : String} {v b rt : Nat} {g : List Record} :
    ∀ (m : List (Nat × TripState)) (events : List LoopEvent),
      (∀ e ∈ events, e.trip_flip = true) →
      ∀ e ∈ m.foldl (recovery_step mil sS eS v b rt g) events, e.trip_flip = true := by
  intro m
  induction m with
  | nil => intro events h e he; exact h e he
  | cons a m ih =>
    intro events h e he
    rw [List.foldl_cons] at he
    refine ih _ ?_ e he
    intro x hx
    rcases recovery_step_mem hx with h1 | h1
    · exact h x h1
    · exact h1.1

/-- With equal start and end stops, a whole partition only ever emits
trip-flip events. -/
theorem process_group_flips (mil : Rat) (s : String) (v b rt : Nat)
    (group : List Record) (events0 : List LoopEvent)
    (h : ∀ e ∈ events0, e.trip_flip = true) :
    ∀ e ∈ process_group mil s s v b rt group events0, e.trip_flip = true := by
  unfold process_group
  dsimp only
  apply recovery_fold_flips
  rw [scan_fold_snd_of_eq]
  exact h

/-- C4 amended: when the configured start stop equals the configured end
stop, the start branch shadows the completion branch, so no event is
ever emitted through the normal path: every emitted event is a trip-flip
recovery event (in particular a trip revisiting the stop under its own
trip id completes no loop). -/
theorem claim_C4_amended (df : List Record) (mil : Rat) (s : String) :
    ∀ e ∈ get_loop_events df mil s s, e.trip_flip = true := by
  intro e he
  have he2 : e ∈ raw_loop_events df mil s s :=
    ((List.perm_insertionSort evLe _).mem_iff).mp he
  have hraw : ∀ x ∈ raw_loop_events df mil s s, x.trip_flip = true := by
    unfold raw_loop_events
    dsimp only
    apply foldl_preserve (P := fun (es : List LoopEvent) => ∀ x ∈ es, x.trip_flip = true)
    · intro acc k hacc
      exact process_group_flips mil s k.1 k.2.1 k.2.2 _ acc hacc
    · intro x hx; cases hx
  exact hraw e he2

/-- Witness for C4: on the two-record input (trip 1 then trip 2, both at
stop "A" with start = end = "A") the single emitted event is a trip-flip
event. -/
theorem claim_C4_witness :
    ((get_loop_events [⟨7, 3, 55, 1, "A", "L", 100⟩, ⟨7, 3, 55, 2, "A", "L", 200⟩]
        4 "A" "A").getD 0 dummyEvent).trip_flip = true := by
  have hlen : 0 < (get_loop_events [⟨7, 3, 55, 1, "A", "L", 100⟩,
      ⟨7, 3, 55, 2, "A", "L", 200⟩] 4 "A" "A").length := by decide
  have hg : (get_loop_events [⟨7, 3, 55, 1, "A", "L", 100⟩, ⟨7, 3, 55, 2, "A", "L", 200⟩]
      4 "A" "A").getD 0 dummyEvent
      = (get_loop_events [⟨7, 3, 55, 1, "A", "L", 100⟩, ⟨7, 3, 55, 2, "A", "L", 200⟩]
        4 "A" "A").get ⟨0, hlen⟩ := by
    rw [List.getD_eq_getElem?_getD, List.getElem?_eq_getElem hlen, Option.getD_some,
      List.get_eq_getElem]
  rw [hg]
  exact claim_C4_amended _ 4 "A" _ (List.get_mem _ _ _)

/-- Positional characterization of `Loop_Count` assignment: every event
in an accumulated list carries 1 + the number of earlier events of the
same vehicle completing on the same service day. -/
def CountsSpec (events : List LoopEvent) : Prop :=
  ∀ i (h : i < events.length),
    (events.get ⟨i, h⟩).loop_count =
      dailyLoops (events.take i) (events.get ⟨i, h⟩).vehicle
        (get_service_day ((events.get ⟨i, h⟩).loop_completed_at)) + 1

theorem countsSpec_nil : CountsSpec [] := fun _ h => absurd h (by simp)

theorem countsSpec_append {events : List LoopEvent} {mil : Rat} {v b rt tr : Nat}
    {sS eS : String} {ts : Nat} {fl : Bool} {etr : Nat} (h : CountsSpec events) :
    CountsSpec (appendEvent mil events v b rt tr sS eS ts fl etr) := by
  intro i hi
  unfold appendEvent at hi ⊢
  dsimp only at hi ⊢
  rw [List.length_append, List.length_singleton] at hi
  rcases Nat.lt_or_ge i events.length with hlt | hge
  · rw [List.get_eq_getElem, List.getElem_append_left hlt,
      List.take_append_of_le_length (Nat.le_of_lt hlt)]
    have hh := h i hlt
    rw [List.get_eq_getElem] at hh
    exact hh
  · have heq : i = events.length := by omega
    subst heq
    rw [List.get_eq_getElem, List.getElem_append_right (Nat.le_refl _)]
    simp only [Nat.sub_self, List.getElem_cons_zero, List.take_left]

theorem scan_step_counts (mil : Rat) (sS eS : String) (v b rt : Nat)
    (st : List (Nat × TripState) × List LoopEvent) (p : Nat × Record)
    (h : CountsSpec st.2) : CountsSpec (scan_step mil sS eS v b rt st p).2 := by
  unfold scan_step
  dsimp only
  split
  · exact h
  · split
    · exact countsSpec_append h
    · exact h

theorem recovery_step_counts (mil : Rat) (sS eS : String) (v b rt : Nat)
    (g : List Record) (events : List LoopEvent) (entry : Nat × TripState)
    (h : CountsSpec events) :
    CountsSpec (recovery_step mil sS eS v b rt g events entry) := by
  unfold recovery_step
  dsimp only
  split
  · split
    · exact h
    · split
      · exact h
      · split
        · exact countsSpec_append h
        · exact h
  · exact h

theorem process_group_counts (mil : Rat) (sS eS : String) (v b rt : Nat)
    (group : List Record) {events0 : List LoopEvent} (h : CountsSpec events0) :
    CountsSpec (process_group mil sS eS v b rt group events0) := by
  unfold process_group
  dsimp only
  apply foldl_preserve (P := fun (es : List LoopEvent) => CountsSpec es)
  · intro s a hs
    exact recovery_step_counts mil sS eS v b rt _ s a hs
  · exact foldl_preserve
      (P := fun (st : List (Nat × TripState) × List LoopEvent) => CountsSpec st.2)
      (fun s a hs => scan_step_counts mil sS eS v b rt s a hs) _ _ h

theorem raw_loop_events_counts (df : List Record) (mil : Rat) (sS eS : String) :
    CountsSpec (raw_loop_events df mil sS eS) := by
  unfold raw_loop_events
  dsimp only
  apply foldl_preserve (P := fun (es : List LoopEvent) => CountsSpec es)
  · intro s k hs
    exact process_group_counts mil sS eS k.1 k.2.1 k.2.2 _ hs
  · exact countsSpec_nil

/-- C6 amended: loop_count ordinals are assigned in emission order
(partitions in ascending (vehicle, block, route) key order, within a
partition the normal completions in scan order followed by the trip-flip
recoveries), each ordinal being 1 + the number of previously emitted
events of the same vehicle and service day — not in global completed_at
order, so a chronologically earlier completion can receive a larger
ordinal than a later one (see the counterexample). -/
theorem claim_C6_amended (df : List Record) (mil : Rat) (sS eS : String) (i : Nat)
    (h : i < (raw_loop_events df mil sS eS).length) :
    ((raw_loop_events df mil sS eS).getD i dummyEvent).loop_count
      = dailyLoops ((raw_loop_events df mil sS eS).take i)
          ((raw_loop_events df mil sS eS).getD i dummyEvent).vehicle
          (get_service_day (((raw_loop_events df mil sS eS).getD i dummyEvent).loop_completed_at))
        + 1 := by
  have hg : (raw_loop_events df mil sS eS).getD i dummyEvent
      = (raw_loop_events df mil sS eS).get ⟨i, h⟩ := by
    rw [List.getD_eq_getElem?_getD, List.getElem?_eq_getElem h, Option.getD_some,
      List.get_eq_getElem]
  rw [hg]
  exact raw_loop_events_counts df mil sS eS i h

/-- Witness for C6 amended: the first raw event of the two-block input
carries loop_count 1 = 1 + the 0 events emitted before it. -/
theorem claim_C6_amended_witness :
    0 < (raw_loop_events [⟨7, 1, 55, 1, "S", "L", 64800⟩, ⟨7, 1, 55, 1, "E", "L", 66600⟩,
        ⟨7, 2, 55, 2, "S", "L", 36000⟩, ⟨7, 2, 55, 2, "E", "L", 37800⟩] 4 "S" "E").length
    ∧ ((raw_loop_events [⟨7, 1, 55, 1, "S", "L", 64800⟩, ⟨7, 1, 55, 1, "E", "L", 66600⟩,
        ⟨7, 2, 55, 2, "S", "L", 36000⟩, ⟨7, 2, 55, 2, "E", "L", 37800⟩] 4 "S" "E").getD 0
          dummyEvent).loop_count
      = dailyLoops ((raw_loop_events [⟨7, 1, 55, 1, "S", "L", 64800⟩, ⟨7, 1, 55, 1, "E", "L", 66600⟩,
          ⟨7, 2, 55, 2, "S", "L", 36000⟩, ⟨7, 2, 55, 2, "E", "L", 37800⟩] 4 "S" "E").take 0)
          ((raw_loop_events [⟨7, 1, 55, 1, "S", "L", 64800⟩, ⟨7, 1, 55, 1, "E", "L", 66600⟩,
            ⟨7, 2, 55, 2, "S", "L", 36000⟩, ⟨7, 2, 55, 2, "E", "L", 37800⟩] 4 "S" "E").getD 0
              dummyEvent).vehicle
          (get_service_day (((raw_loop_events [⟨7, 1, 55, 1, "S", "L", 64800⟩,
            ⟨7, 1, 55, 1, "E", "L", 66600⟩, ⟨7, 2, 55, 2, "S", "L", 36000⟩,
            ⟨7, 2, 55, 2, "E", "L", 37800⟩] 4 "S" "E").getD 0 dummyEvent).loop_completed_at))
        + 1 :=
  ⟨by decide, claim_C6_amended _ 4 "S" "E" 0 (by decide)⟩

/-- From the positional characterization: restricted to one vehicle and
one service day, the assigned loop counts read 1, 2, ..., k in emission
order. -/
theorem countsSpec_ordinals (es : List LoopEvent) (h : CountsSpec es) (v : Nat) (d : Int) :
    (es.filter (fun e => decide (e.vehicle = v ∧ get_service_day e.loop_completed_at = d))).map
        (fun e => e.loop_count)
      = List.range' 1
          ((es.filter (fun e =>
            decide (e.vehicle = v ∧ get_service_day e.loop_completed_at = d))).length) := by
  induction es using List.reverseRecOn with
  | nil => simp
  | append_singleton es e ih =>
    have hes : CountsSpec es := by
      intro i hi
      have hi2 : i < (es ++ [e]).length := by
        rw [List.length_append]; omega
      have hh := h i hi2
      rw [List.get_eq_getElem] at hh ⊢
      rw [List.getElem_append_left hi,
        List.take_append_of_le_length (Nat.le_of_lt hi)] at hh
      exact hh
    have hlast := h es.length (by rw [List.length_append]; simp)
    rw [List.get_eq_getElem] at hlast
    rw [List.getElem_append_right (Nat.le_refl _)] at hlast
    simp only [Nat.sub_self, List.getElem_cons_zero, List.take_left] at hlast
    rw [List.filter_append]
    by_cases hp : e.vehicle = v ∧ get_service_day e.loop_completed_at = d
    · rw [List.filter_singleton, decide_eq_true hp]
      simp only [cond_true]
      rw [List.map_append, List.map_singleton, List.length_append, List.length_singleton]
      rw [ih hes]
      have hcount : e.loop_count
          = (es.filter (fun x =>
              decide (x.vehicle = v ∧ get_service_day x.loop_completed_at = d))).length + 1 := by
        rw [hlast]
        unfold dailyLoops
        rw [hp.1, hp.2]
      rw [hcount, List.range'_concat]
      simp [Nat.add_comm]
    · rw [List.filter_singleton, decide_eq_false hp]
      simp only [cond_false, List.append_nil]
      exact ih hes

/-- C7: for every vehicle and every service day, the multiset of
loop_count values over that vehicle's events completing on that service
day is exactly 1..k with no gaps or repeats, where k is the number of
such events (the filter spans all blocks, as it only inspects the
vehicle and the service day). -/
theorem claim_C7 (df : List Record) (mil : Rat) (sS eS : String) (v : Nat) (d : Int) :
    (((get_loop_events df mil sS eS).filter (fun e =>
        decide (e.vehicle = v ∧ get_service_day e.loop_completed_at = d))).map
      (fun e => e.loop_count)).Perm
      (List.range' 1
        (((get_loop_events df mil sS eS).filter (fun e =>
          decide (e.vehicle = v ∧ get_service_day e.loop_completed_at = d))).length)) := by
  have hperm : (get_loop_events df mil sS eS).Perm (raw_loop_events df mil sS eS) :=
    List.perm_insertionSort evLe _
  have hf := List.Perm.filter (fun e =>
    decide (e.vehicle = v ∧ get_service_day e.loop_completed_at = d)) hperm
  have hm := List.Perm.map (fun e => e.loop_count) hf
  rw [List.Perm.length_eq hf,
    ← countsSpec_ordinals (raw_loop_events df mil sS eS) (raw_loop_events_counts df mil sS eS) v d]
  exact hm

theorem dedup_const {α : Type _} [DecidableEq α] (k : α) :
    ∀ (l : List α), (∀ x ∈ l, x = k) → l ≠ [] → l.dedup = [k] := by
  intro l
  induction l with
  | nil => intro _ hne; exact absurd rfl hne
  | cons a l ih =>
    intro hall _
    have ha : a = k := hall a (List.mem_cons_self a l)
    subst ha
    cases l with
    | nil => simp
    | cons x l2 =>
      have hx : x = a := hall x (by simp)
      subst hx
      rw [List.dedup_cons_of_mem (List.mem_cons_self x l2)]
      exact ih (fun y hy => hall y (List.mem_cons_of_mem _ hy)) (by simp)

theorem raw_loop_events_single_key (df : List Record) (mil : Rat) (sS eS : String)
    (k : Nat × Nat × Nat) (hne : df ≠ []) (hall : ∀ r ∈ df, recKey r = k) :
    raw_loop_events df mil sS eS
      = process_group mil sS eS k.1 k.2.1 k.2.2 (List.insertionSort recLe df) [] := by
  unfold raw_loop_events
  dsimp only
  have hall2 : ∀ r ∈ List.insertionSort recLe df, recKey r = k := fun r hr =>
    hall r ((List.perm_insertionSort recLe df).mem_iff.mp hr)
  have hne2 : List.insertionSort recLe df ≠ [] := by
    intro h0
    have hlen := List.Perm.length_eq (List.perm_insertionSort recLe df)
    rw [h0] at hlen
    cases df with
    | nil => exact hne rfl
    | cons a l => simp at hlen
  have hmap : ∀ x ∈ (List.insertionSort recLe df).map recKey, x = k := by
    intro x hx
    rcases List.mem_map.mp hx with ⟨r, hr, hrx⟩
    rw [← hrx]
    exact hall2 r hr
  have hmapne : (List.insertionSort recLe df).map recKey ≠ [] := by
    intro h0
    exact hne2 (List.map_eq_nil_iff.mp h0)
  rw [dedup_const k _ hmap hmapne]
  have hsingle : List.insertionSort keyLe [k] = [k] := rfl
  rw [hsingle, List.foldl_cons, List.foldl_nil]
  have hfilter : (List.insertionSort recLe df).filter (fun r => decide (recKey r = k))
      = List.insertionSort recLe df :=
    List.filter_eq_self.mpr (fun r hr => decide_eq_true (hall2 r hr))
  rw [hfilter]

theorem claim_C8 (v b rt tr : Nat) (sS eS d1 d2 d3 d4 : String) (mil : Rat)
    (t1 t2 t3 t4 : Nat) (hne : sS ≠ eS) (h12 : t1 < t2) (h23 : t2 < t3) (h34 : t3 < t4) :
    ((get_loop_events [⟨v, b, rt, tr, sS, d1, t1⟩, ⟨v, b, rt, tr, eS, d2, t2⟩,
        ⟨v, b, rt, tr, sS, d3, t3⟩, ⟨v, b, rt, tr, eS, d4, t4⟩] mil sS eS).map
      (fun e => e.trip_flip)) = [false, false]
    ∧ ((get_loop_events [⟨v, b, rt, tr, sS, d1, t1⟩, ⟨v, b, rt, tr, sS, d2, t2⟩,
        ⟨v, b, rt, tr, eS, d3, t3⟩] mil sS eS).map (fun e => e.trip_flip)) = [false] := by
  have hne2 : ¬ (eS = sS) := fun hh => hne hh.symm
  constructor
  · have hs1 : List.Sorted recLe [(⟨v, b, rt, tr, sS, d1, t1⟩ : Record),
        ⟨v, b, rt, tr, eS, d2, t2⟩, ⟨v, b, rt, tr, sS, d3, t3⟩, ⟨v, b, rt, tr, eS, d4, t4⟩] := by
      simp [List.sorted_cons, recLe]
      omega
    have hs2 : List.Sorted tsLe [(⟨v, b, rt, tr, sS, d1, t1⟩ : Record),
        ⟨v, b, rt, tr, eS, d2, t2⟩, ⟨v, b, rt, tr, sS, d3, t3⟩, ⟨v, b, rt, tr, eS, d4, t4⟩] := by
      simp [List.sorted_cons, tsLe]
      omega
    have hraw2 : (raw_loop_events [(⟨v, b, rt, tr, sS, d1, t1⟩ : Record),
        ⟨v, b, rt, tr, eS, d2, t2⟩, ⟨v, b, rt, tr, sS, d3, t3⟩, ⟨v, b, rt, tr, eS, d4, t4⟩]
          mil sS eS).map (fun e => e.trip_flip) = [false, false] := by
      rw [raw_loop_events_single_key _ mil sS eS (v, b, rt) (by simp)
        (by intro r hr; simp at hr; rcases hr with rfl | rfl | rfl | rfl <;> rfl)]
      rw [List.Sorted.insertionSort_eq hs1]
      unfold process_group
      dsimp only
      rw [List.Sorted.insertionSort_eq hs2]
      simp [List.enum, List.enumFrom, scan_step, ensure_trip, get_trip, set_trip,
        recovery_step, appendEvent, hne2]
    unfold get_loop_events
    have hperm := List.Perm.map (fun e => e.trip_flip)
      (List.perm_insertionSort evLe (raw_loop_events [(⟨v, b, rt, tr, sS, d1, t1⟩ : Record),
        ⟨v, b, rt, tr, eS, d2, t2⟩, ⟨v, b, rt, tr, sS, d3, t3⟩, ⟨v, b, rt, tr, eS, d4, t4⟩] mil sS eS))
    rw [hraw2] at hperm
    have hlen := List.Perm.length_eq hperm
    have hrep := List.eq_replicate_iff.mpr ⟨hlen.trans rfl, fun x hx => by
      have hm := hperm.mem_iff.mp hx
      simp at hm
      exact hm⟩
    exact hrep
  · have hs1 : List.Sorted recLe [(⟨v, b, rt, tr, sS, d1, t1⟩ : Record),
        ⟨v, b, rt, tr, sS, d2, t2⟩, ⟨v, b, rt, tr, eS, d3, t3⟩] := by
      simp [List.sorted_cons, recLe]
      omega
    have hs2 : List.Sorted tsLe [(⟨v, b, rt, tr, sS, d1, t1⟩ : Record),
        ⟨v, b, rt, tr, sS, d2, t2⟩, ⟨v, b, rt, tr, eS, d3, t3⟩] := by
      simp [List.sorted_cons, tsLe]
      omega
    have hraw2 : (raw_loop_events [(⟨v, b, rt, tr, sS, d1, t1⟩ : Record),
        ⟨v, b, rt, tr, sS, d2, t2⟩, ⟨v, b, rt, tr, eS, d3, t3⟩] mil sS eS).map
          (fun e => e.trip_flip) = [false] := by
      rw [raw_loop_events_single_key _ mil sS eS (v, b, rt) (by simp)
        (by intro r hr; simp at hr; rcases hr with rfl | rfl | rfl <;> rfl)]
      rw [List.Sorted.insertionSort_eq hs1]
      unfold process_group
      dsimp only
      rw [List.Sorted.insertionSort_eq hs2]
      simp [List.enum, List.enumFrom, scan_step, ensure_trip, get_trip, set_trip,
        recovery_step, appendEvent, hne2]
    unfold get_loop_events
    have hperm := List.Perm.map (fun e => e.trip_flip)
      (List.perm_insertionSort evLe (raw_loop_events [(⟨v, b, rt, tr, sS, d1, t1⟩ : Record),
        ⟨v, b, rt, tr, sS, d2, t2⟩, ⟨v, b, rt, tr, eS, d3, t3⟩] mil sS eS))
    rw [hraw2] at hperm
    have hlen := List.Perm.length_eq hperm
    have hrep := List.eq_replicate_iff.mpr ⟨hlen.trans rfl, fun x hx => by
      have hm := hperm.mem_iff.mp hx
      simp at hm
      exact hm⟩
    exact hrep

/-- Witness for C8 at concrete values (vehicle 7, block 3, route 55,
trip 1, stops "S" and "E", timestamps 100 < 200 < 300 < 400). -/
theorem claim_C8_witness :
    ((get_loop_events [⟨7, 3, 55, 1, "S", "L", 100⟩, ⟨7, 3, 55, 1, "E", "L", 200⟩,
        ⟨7, 3, 55, 1, "S", "L", 300⟩, ⟨7, 3, 55, 1, "E", "L", 400⟩] 4 "S" "E").map
      (fun e => e.trip_flip)) = [false, false]
    ∧ ((get_loop_events [⟨7, 3, 55, 1, "S", "L", 100⟩, ⟨7, 3, 55, 1, "S", "L", 200⟩,
        ⟨7, 3, 55, 1, "E", "L", 300⟩] 4 "S" "E").map (fun e => e.trip_flip)) = [false] :=
  claim_C8 7 3 55 1 "S" "E" "L" "L" "L" "L" 4 100 200 300 400
    (by decide) (by decide) (by decide) (by decide)

/-- The trip-flip events charged to trip `t` in an event list. -/
def flip_filter (events : List LoopEvent) (t : Nat) : List LoopEvent :=
  events.filter (fun e => e.trip_flip && e.trip == t)

/-- A recovery step either leaves the event list unchanged or appends a
single trip-flip event for the entry's own trip. -/
theorem recovery_step_cases (mil : Rat) (sS eS : String) (v b rt : Nat) (g : List Record)
    (events : List LoopEvent) (entry : Nat × TripState) :
    recovery_step mil sS eS v b rt g events entry = events ∨
    ∃ e, recovery_step mil sS eS v b rt g events entry = events ++ [e] ∧
      e.trip = entry.1 ∧ e.trip_flip = true := by
  unfold recovery_step
  dsimp only
  split
  · split
    · exact Or.inl rfl
    · split
      · exact Or.inl rfl
      · split
        · right
          unfold appendEvent
          dsimp only
          exact ⟨_, rfl, rfl, rfl⟩
        · exact Or.inl rfl
  · exact Or.inl rfl

/-- Recovery steps for other trips never touch the flip events of `t`. -/
theorem recovery_fold_flip_filter_of_not_mem (mil : Rat) (sS eS : String) (v b rt : Nat)
    (g : List Record) (t : Nat) :
    ∀ (m : List (Nat × TripState)) (events : List LoopEvent), t ∉ m.map Prod.fst →
      flip_filter (m.foldl (recovery_step mil sS eS v b rt g) events) t
        = flip_filter events t := by
  intro m
  induction m with
  | nil => intro events _; rfl
  | cons a m ih =>
    intro events hnm
    rw [List.foldl_cons]
    have hnm2 : t ∉ m.map Prod.fst := fun hh => hnm (List.mem_cons_of_mem _ hh)
    have hane : a.1 ≠ t := fun hh => hnm (by rw [List.map_cons, hh]; exact List.mem_cons_self _ _)
    rw [ih _ hnm2]
    rcases recovery_step_cases mil sS eS v b rt g events a with hc | ⟨e, hc, het, hef⟩
    · rw [hc]
    · rw [hc]
      unfold flip_filter
      rw [List.filter_append]
      have hpe : (e.trip_flip && e.trip == t) = false := by
        rw [het, hef]
        simp [hane]
      simp [hpe]

/-- C1: after the scan of a partition, for each trip still waiting the
recovery pass scans forward from start_index+1 for the first record of a
different trip; exactly when that record's stop is the configured end
stop it emits exactly one trip-flip event for the waiting trip, with
end_trip the found record's trip and completed_at its timestamp;
otherwise it emits nothing for that trip. -/
theorem claim_C1 (mil : Rat) (sS eS : String) (v b rt : Nat) (g : List Record)
    (tripId : Nat) (st : TripState) (hw : st.waiting_for_end = true) (k : Nat)
    (hidx : st.start_index = some k) :
    ∀ (m : List (Nat × TripState)) (events : List LoopEvent),
      (tripId, st) ∈ m → (m.map Prod.fst).Nodup →
      ((∀ p, (g.enum.drop (k + 1)).find? (fun q => q.2.trip != tripId) = some p →
          p.2.stopName = eS →
          ∃ e, flip_filter (m.foldl (recovery_step mil sS eS v b rt g) events) tripId
              = flip_filter events tripId ++ [e] ∧
            e.trip = tripId ∧ e.end_trip = p.2.trip ∧
            e.loop_completed_at = p.2.timestamp ∧ e.trip_flip = true)
       ∧ (∀ p, (g.enum.drop (k + 1)).find? (fun q => q.2.trip != tripId) = some p →
          ¬ p.2.stopName = eS →
          flip_filter (m.foldl (recovery_step mil sS eS v b rt g) events) tripId
            = flip_filter events tripId)
       ∧ ((g.enum.drop (k + 1)).find? (fun q => q.2.trip != tripId) = none →
          flip_filter (m.foldl (recovery_step mil sS eS v b rt g) events) tripId
            = flip_filter events tripId)) := by
  intro m
  induction m with
  | nil => intro events hmem; cases hmem
  | cons a m ih =>
    intro events hmem hnd
    rw [List.map_cons] at hnd
    have hnd1 : a.1 ∉ m.map Prod.fst := (List.nodup_cons.mp hnd).1
    have hnd2 : (m.map Prod.fst).Nodup := (List.nodup_cons.mp hnd).2
    rcases List.mem_cons.mp hmem with heq | hmm
    · subst heq
      rw [List.foldl_cons]
      refine ⟨?_, ?_, ?_⟩
      · intro p hfind hstop
        have hstep : recovery_step mil sS eS v b rt g events (tripId, st)
            = appendEvent mil events v b rt tripId sS eS p.2.timestamp true p.2.trip := by
          unfold recovery_step
          dsimp only
          simp only [hw, hidx, hfind, if_true]
          rw [if_pos hstop]
        rw [hstep, recovery_fold_flip_filter_of_not_mem mil sS eS v b rt g tripId m _ hnd1]
        refine ⟨⟨v, b, rt, tripId, sS, eS, p.2.timestamp,
            dailyLoops events v (get_service_day p.2.timestamp) + 1,
            round2 (((dailyLoops events v (get_service_day p.2.timestamp) + 1 : Nat) : Rat) * mil),
            true, p.2.trip⟩, ?_, rfl, rfl, rfl, rfl⟩
        unfold appendEvent flip_filter
        dsimp only
        rw [List.filter_append]
        simp
      · intro p hfind hstop
        have hstep : recovery_step mil sS eS v b rt g events (tripId, st) = events := by
          unfold recovery_step
          dsimp only
          simp only [hw, hidx, hfind, if_true]
          rw [if_neg hstop]
        rw [hstep, recovery_fold_flip_filter_of_not_mem mil sS eS v b rt g tripId m _ hnd1]
      · intro hfind
        have hstep : recovery_step mil sS eS v b rt g events (tripId, st) = events := by
          unfold recovery_step
          dsimp only
          simp only [hw, hidx, hfind, if_true]
        rw [hstep, recovery_fold_flip_filter_of_not_mem mil sS eS v b rt g tripId m _ hnd1]
    · rw [List.foldl_cons]
      have hane : a.1 ≠ tripId := by
        intro hh
        apply hnd1
        rw [hh]
        exact List.mem_map.mpr ⟨(tripId, st), hmm, rfl⟩
      have hff : flip_filter (recovery_step mil sS eS v b rt g events a) tripId
          = flip_filter events tripId := by
        rcases recovery_step_cases mil sS eS v b rt g events a with hc | ⟨e, hc, het, hef⟩
        · rw [hc]
        · rw [hc]
          unfold flip_filter
          rw [List.filter_append]
          have hpe : (e.trip_flip && e.trip == tripId) = false := by
            rw [het, hef]
            simp [hane]
          simp [hpe]
      obtain ⟨h1, h2, h3⟩ := ih (recovery_step mil sS eS v b rt g events a) hmm hnd2
      refine ⟨?_, ?_, ?_⟩
      · intro p hfind hstop
        obtain ⟨e, hee, h4⟩ := h1 p hfind hstop
        exact ⟨e, by rw [hee, hff], h4⟩
      · intro p hfind hstop
        rw [h2 p hfind hstop, hff]
      · intro hfind
        rw [h3 hfind, hff]

/-- Witness for C1 on a two-record partition: trip 1 is waiting from
index 0, the first record of a different trip is (1, trip 2 at "E"),
and exactly one flip event for trip 1 is appended. -/
theorem claim_C1_witness :
    ∃ e, flip_filter ([((1 : Nat), (⟨true, some 100, some 0⟩ : TripState))].foldl
        (recovery_step 4 "S" "E" 7 3 55
          [⟨7, 3, 55, 1, "S", "L", 100⟩, ⟨7, 3, 55, 2, "E", "L", 200⟩]) []) 1
      = flip_filter [] 1 ++ [e] ∧
      e.trip = 1 ∧ e.end_trip = 2 ∧ e.loop_completed_at = 200 ∧ e.trip_flip = true :=
  (claim_C1 4 "S" "E" 7 3 55 [⟨7, 3, 55, 1, "S", "L", 100⟩, ⟨7, 3, 55, 2, "E", "L", 200⟩]
      1 ⟨true, some 100, some 0⟩ rfl 0 rfl [(1, ⟨true, some 100, some 0⟩)] []
      (by decide) (by decide)).1
    (1, ⟨7, 3, 55, 2, "E", "L", 200⟩) (by decide) rfl

/-- Partition-local witness property of an event: its identity fields
carry the partition key, and its completion is the timestamp of an
end-stop record of the partition, no earlier than a start-stop record. -/
def PevG (g : List Record) (sS eS : String) (v b rt : Nat) (e : LoopEvent) : Prop :=
  e.vehicle = v ∧ e.block = b ∧ e.route = rt ∧
  ∃ rs re, rs ∈ g ∧ re ∈ g ∧ rs.stopName = sS ∧ re.stopName = eS ∧
    e.loop_completed_at = re.timestamp ∧ rs.timestamp ≤ re.timestamp

/-- Scan invariant: any waiting trip recorded its arming position, which
is an already-scanned start-stop record of the partition. -/
def ScanInv (sS : String) (g : List Record) (n : Nat) (m : List (Nat × TripState)) : Prop :=
  ∀ t st, (t, st) ∈ m → st.waiting_for_end = true →
    ∃ idx, st.start_index = some idx ∧ idx < n ∧
      ∃ h : idx < g.length, (g.get ⟨idx, h⟩).stopName = sS

theorem scanInv_mono (sS : String) (g : List Record) {n n2 : Nat} (hle : n ≤ n2)
    {m : List (Nat × TripState)} (h : ScanInv sS g n m) : ScanInv sS g n2 m := by
  intro t st hm hw
  obtain ⟨idx, h1, h2, h3⟩ := h t st hm hw
  exact ⟨idx, h1, by omega, h3⟩

theorem scanInv_ensure (sS : String) (g : List Record) {n : Nat}
    {m : List (Nat × TripState)} (t : Nat) (h : ScanInv sS g n m) :
    ScanInv sS g n (ensure_trip m t) := by
  intro t2 st hmem hw
  unfold ensure_trip at hmem
  split at hmem
  · exact h t2 st hmem hw
  · rcases List.mem_append.mp hmem with h1 | h1
    · exact h t2 st h1 hw
    · have h2 := List.mem_singleton.mp h1
      rw [Prod.mk.injEq] at h2
      rw [h2.2] at hw
      simp at hw

/-- A trip whose looked-up state is waiting is actually present in the
trip map (the default state is not waiting). -/
theorem get_trip_mem {m : List (Nat × TripState)} {t : Nat}
    (h : (get_trip m t).waiting_for_end = true) : (t, get_trip m t) ∈ m := by
  unfold get_trip at h ⊢
  rcases hfind : m.find? (fun p => p.1 == t) with _ | p
  · rw [hfind] at h
    cases h
  · rw [hfind] at h ⊢
    have hp := List.mem_of_find?_eq_some hfind
    have hpt := List.find?_some hfind
    have ht : p.1 = t := by simpa using hpt
    rw [← ht]
    simpa using hp

theorem tsLe_of_take_drop (g : List Record) (hsort : List.Sorted tsLe g) (x : Nat)
    {rs re : Record} (hrs : rs ∈ g.take x) (hre : re ∈ g.drop x) :
    rs.timestamp ≤ re.timestamp := by
  have h := hsort
  rw [← List.take_append_drop x g, List.Sorted, List.pairwise_append] at h
  exact h.2.2 rs hrs re hre

theorem get_mem_take {α : Type _} (l : List α) (i n : Nat) (h : i < n) (hl : i < l.length) :
    l.get ⟨i, hl⟩ ∈ l.take n := by
  have h1 : i < (l.take n).length := by
    rw [List.length_take]
    exact lt_min h hl
  have h2 : (l.take n).get ⟨i, h1⟩ = l.get ⟨i, hl⟩ := by
    rw [List.get_eq_getElem, List.get_eq_getElem, List.getElem_take]
  rw [← h2]
  exact List.get_mem _ _ _

theorem get_mem_drop {α : Type _} (l : List α) (n : Nat) (hl : n < l.length) :
    l.get ⟨n, hl⟩ ∈ l.drop n := by
  have h1 : 0 < (l.drop n).length := by
    rw [List.length_drop]
    omega
  have h2 : (l.drop n).get ⟨0, h1⟩ = l.get ⟨n, hl⟩ := by
    rw [List.get_eq_getElem, List.get_eq_getElem, List.getElem_drop]
    simp
  rw [← h2]
  exact List.get_mem _ _ _

theorem snd_mem_enumFrom {α : Type _} :
    ∀ (l : List α) (n : Nat) (p : Nat × α), p ∈ l.enumFrom n → p.2 ∈ l := by
  intro l
  induction l with
  | nil => intro n p hp; cases hp
  | cons a l ih =>
    intro n p hp
    rw [List.enumFrom_cons] at hp
    rcases List.mem_cons.mp hp with h1 | h1
    · rw [h1]
      exact List.mem_cons_self a l
    · exact List.mem_cons_of_mem a (ih (n + 1) p h1)

theorem enumFrom_drop {α : Type _} :
    ∀ (l : List α) (m n : Nat), (l.enumFrom m).drop n = (l.drop n).enumFrom (m + n) := by
  intro l
  induction l with
  | nil => intro m n; simp [List.enumFrom]
  | cons a l ih =>
    intro m n
    cases n with
    | zero => simp
    | succ n =>
      rw [List.enumFrom_cons, List.drop_succ_cons, List.drop_succ_cons, ih (m + 1) n]
      congr 1
      omega

theorem enum_drop {α : Type _} (l : List α) (n : Nat) :
    l.enum.drop n = (l.drop n).enumFrom n := by
  have h := enumFrom_drop l 0 n
  simpa [List.enum] using h

theorem scan_step_pres (mil : Rat) (sS eS : String) (v b rt : Nat) (g : List Record)
    (hsort : List.Sorted tsLe g) (Q : LoopEvent → Prop)
    (hQ : ∀ e, PevG g sS eS v b rt e → Q e) (n : Nat) (hn : n < g.length)
    (mst : List (Nat × TripState) × List LoopEvent)
    (h1 : ScanInv sS g n mst.1) (h2 : ∀ e ∈ mst.2, Q e) :
    ScanInv sS g (n + 1) (scan_step mil sS eS v b rt mst (n, g.get ⟨n, hn⟩)).1
    ∧ ∀ e ∈ (scan_step mil sS eS v b rt mst (n, g.get ⟨n, hn⟩)).2, Q e := by
  unfold scan_step
  dsimp only
  by_cases hstart : (g.get ⟨n, hn⟩).stopName = sS
  · rw [if_pos hstart]
    refine ⟨?_, h2⟩
    intro t st hmem hw
    unfold set_trip at hmem
    rcases List.mem_map.mp hmem with ⟨q, hq, hqe⟩
    by_cases hqt : (q.1 == (g.get ⟨n, hn⟩).trip) = true
    · rw [if_pos hqt] at hqe
      rw [Prod.mk.injEq] at hqe
      rw [← hqe.2]
      exact ⟨n, rfl, by omega, hn, hstart⟩
    · rw [if_neg hqt] at hqe
      rw [hqe] at hq
      exact scanInv_mono sS g (by omega) (scanInv_ensure sS g _ h1) t st hq hw
  · by_cases hend : (g.get ⟨n, hn⟩).stopName = eS ∧
        (get_trip (ensure_trip mst.1 (g.get ⟨n, hn⟩).trip) (g.get ⟨n, hn⟩).trip).waiting_for_end
          = true
    · rw [if_neg hstart, if_pos hend]
      constructor
      · intro t st hmem hw
        unfold set_trip at hmem
        rcases List.mem_map.mp hmem with ⟨q, hq, hqe⟩
        by_cases hqt : (q.1 == (g.get ⟨n, hn⟩).trip) = true
        · rw [if_pos hqt] at hqe
          rw [Prod.mk.injEq] at hqe
          rw [← hqe.2] at hw
          simp at hw
        · rw [if_neg hqt] at hqe
          rw [hqe] at hq
          exact scanInv_mono sS g (by omega) (scanInv_ensure sS g _ h1) t st hq hw
      · intro x hx
        rcases mem_appendEvent hx with hold | hnew
        · exact h2 x hold
        · subst hnew
          apply hQ
          obtain ⟨idx, hsi, hidxlt, hbound, hstopS⟩ :=
            scanInv_ensure sS g ((g.get ⟨n, hn⟩).trip) h1 _ _ (get_trip_mem hend.2) hend.2
          refine ⟨rfl, rfl, rfl, g.get ⟨idx, hbound⟩, g.get ⟨n, hn⟩,
            List.get_mem _ _ _, List.get_mem _ _ _, hstopS, hend.1, rfl, ?_⟩
          exact tsLe_of_take_drop g hsort n (get_mem_take g idx n hidxlt hbound)
            (get_mem_drop g n hn)
    · rw [if_neg hstart, if_neg hend]
      exact ⟨scanInv_mono sS g (by omega) (scanInv_ensure sS g _ h1), h2⟩

theorem scan_fold_inv (mil : Rat) (sS eS : String) (v b rt : Nat) (g : List Record)
    (hsort : List.Sorted tsLe g) (Q : LoopEvent → Prop)
    (hQ : ∀ e, PevG g sS eS v b rt e → Q e) :
    ∀ (suffix : List Record) (n : Nat) (mst : List (Nat × TripState) × List LoopEvent),
      g.drop n = suffix → ScanInv sS g n mst.1 → (∀ e ∈ mst.2, Q e) →
      ScanInv sS g (n + suffix.length)
          ((suffix.enumFrom n).foldl (scan_step mil sS eS v b rt) mst).1
        ∧ ∀ e ∈ ((suffix.enumFrom n).foldl (scan_step mil sS eS v b rt) mst).2, Q e := by
  intro suffix
  induction suffix with
  | nil =>
    intro n mst _ h1 h2
    constructor
    · simpa using h1
    · simpa using h2
  | cons r rest ih =>
    intro n mst hdrop h1 h2
    have hn : n < g.length := by
      have hlen := congrArg List.length hdrop
      rw [List.length_drop] at hlen
      simp at hlen
      omega
    have hgn : g.get ⟨n, hn⟩ = r := by
      have h0 : (g.drop n)[0]? = g[n + 0]? := List.getElem?_drop g n 0
      rw [hdrop] at h0
      simp only [List.getElem?_cons_zero, Nat.add_zero] at h0
      rw [List.getElem?_eq_getElem hn] at h0
      rw [List.get_eq_getElem]
      exact (Option.some.inj h0).symm
    have hdrop2 : g.drop (n + 1) = rest := by
      have hdd := List.drop_drop 1 n g
      rw [← hdd, hdrop]
      rfl
    have hpres := scan_step_pres mil sS eS v b rt g hsort Q hQ n hn mst h1 h2
    have hih := ih (n + 1) (scan_step mil sS eS v b rt mst (n, g.get ⟨n, hn⟩))
      hdrop2 hpres.1 hpres.2
    rw [List.enumFrom_cons, List.foldl_cons, List.length_cons,
      show n + (rest.length + 1) = n + 1 + rest.length from by omega, ← hgn]
    exact ⟨hih.1, hih.2⟩

theorem recovery_fold_pev (mil : Rat) (sS eS : String) (v b rt : Nat) (g : List Record)
    (hsort : List.Sorted tsLe g) (Q : LoopEvent → Prop)
    (hQ : ∀ e, PevG g sS eS v b rt e → Q e) :
    ∀ (m : List (Nat × TripState)) (events : List LoopEvent),
      ScanInv sS g g.length m → (∀ e ∈ events, Q e) →
      ∀ e ∈ m.foldl (recovery_step mil sS eS v b rt g) events, Q e := by
  intro m
  induction m with
  | nil => intro events _ h2 e he; exact h2 e he
  | cons a m ih =>
    intro events hinv h2 e he
    rw [List.foldl_cons] at he
    have hinv2 : ScanInv sS g g.length m := fun t st hm hw =>
      hinv t st (List.mem_cons_of_mem _ hm) hw
    refine ih _ hinv2 ?_ e he
    intro x hx
    unfold recovery_step at hx
    dsimp only at hx
    by_cases hw : a.2.waiting_for_end = true
    · rw [if_pos hw] at hx
      rcases hsidx : a.2.start_index with _ | start_idx
      · rw [hsidx] at hx
        exact h2 x hx
      · rw [hsidx] at hx
        dsimp only at hx
        rcases hfind : (g.enum.drop (start_idx + 1)).find? (fun q => q.2.trip != a.1)
            with _ | p
        · rw [hfind] at hx
          exact h2 x hx
        · rw [hfind] at hx
          dsimp only at hx
          by_cases hstop : p.2.stopName = eS
          · rw [if_pos hstop] at hx
            rcases mem_appendEvent hx with hold | hnew
            · exact h2 x hold
            · subst hnew
              apply hQ
              obtain ⟨idx, hsi, hidxlt, hbound, hstopS⟩ :=
                hinv a.1 a.2 (List.mem_cons_self a m) hw
              have hidx2 : start_idx = idx := by
                rw [hsidx] at hsi
                exact Option.some.inj hsi
              subst hidx2
              have hp := List.mem_of_find?_eq_some hfind
              rw [enum_drop] at hp
              have hre : p.2 ∈ g.drop (start_idx + 1) := snd_mem_enumFrom _ _ _ hp
              refine ⟨rfl, rfl, rfl, g.get ⟨start_idx, hbound⟩, p.2,
                List.get_mem _ _ _, List.mem_of_mem_drop hre, hstopS, hstop, rfl, ?_⟩
              exact tsLe_of_take_drop g hsort (start_idx + 1)
                (get_mem_take g start_idx (start_idx + 1) (by omega) hbound) hre
          · rw [if_neg hstop] at hx
            exact h2 x hx
    · rw [if_neg hw] at hx
      exact h2 x hx

theorem process_group_pev (mil : Rat) (sS eS : String) (v b rt : Nat)
    (group : List Record) (events0 : List LoopEvent) (Q : LoopEvent → Prop)
    (hQ : ∀ e, PevG (List.insertionSort tsLe group) sS eS v b rt e → Q e)
    (h0 : ∀ e ∈ events0, Q e) :
    ∀ e ∈ process_group mil sS eS v b rt group events0, Q e := by
  unfold process_group
  dsimp only
  have hsort := List.sorted_insertionSort tsLe group
  have hscan := scan_fold_inv mil sS eS v b rt (List.insertionSort tsLe group) hsort Q hQ
    (List.insertionSort tsLe group) 0 ([], events0) (List.drop_zero _)
    (fun t st hm _ => absurd hm (List.not_mem_nil _)) h0
  have hinv : ScanInv sS (List.insertionSort tsLe group) (List.insertionSort tsLe group).length
      ((List.insertionSort tsLe group).enum.foldl
        (scan_step mil sS eS v b rt) ([], events0)).1 := by
    have h3 := hscan.1
    rwa [Nat.zero_add] at h3
  exact recovery_fold_pev mil sS eS v b rt _ hsort Q hQ _ _ hinv hscan.2

/-- C10: every emitted event's completed_at is the timestamp of an
end-stop record of the event's own (vehicle, block, route) partition,
and that timestamp is at least the timestamp of a start-stop record of
the same partition (the record that armed the loop). -/
theorem claim_C10 (df : List Record) (mil : Rat) (sS eS : String) (e : LoopEvent)
    (he : e ∈ get_loop_events df mil sS eS) :
    ∃ rs re, rs ∈ df ∧ re ∈ df ∧
      rs.vehicle = e.vehicle ∧ rs.block = e.block ∧ rs.route = e.route ∧
      re.vehicle = e.vehicle ∧ re.block = e.block ∧ re.route = e.route ∧
      rs.stopName = sS ∧ re.stopName = eS ∧
      e.loop_completed_at = re.timestamp ∧ rs.timestamp ≤ re.timestamp := by
  have he2 : e ∈ raw_loop_events df mil sS eS :=
    ((List.perm_insertionSort evLe _).mem_iff).mp he
  unfold raw_loop_events at he2
  dsimp only at he2
  have hall : ∀ x ∈ (List.insertionSort keyLe
      ((List.insertionSort recLe df).map recKey).dedup).foldl
        (fun events k => process_group mil sS eS k.1 k.2.1 k.2.2
          ((List.insertionSort recLe df).filter (fun r => decide (recKey r = k))) events) [],
      ∃ rs re, rs ∈ df ∧ re ∈ df ∧
        rs.vehicle = x.vehicle ∧ rs.block = x.block ∧ rs.route = x.route ∧
        re.vehicle = x.vehicle ∧ re.block = x.block ∧ re.route = x.route ∧
        rs.stopName = sS ∧ re.stopName = eS ∧
        x.loop_completed_at = re.timestamp ∧ rs.timestamp ≤ re.timestamp := by
    apply foldl_preserve (P := fun (es : List LoopEvent) => ∀ x ∈ es,
      ∃ rs re, rs ∈ df ∧ re ∈ df ∧
        rs.vehicle = x.vehicle ∧ rs.block = x.block ∧ rs.route = x.route ∧
        re.vehicle = x.vehicle ∧ re.block = x.block ∧ re.route = x.route ∧
        rs.stopName = sS ∧ re.stopName = eS ∧
        x.loop_completed_at = re.timestamp ∧ rs.timestamp ≤ re.timestamp)
    · intro acc k hacc
      apply process_group_pev mil sS eS k.1 k.2.1 k.2.2 _ acc _ ?_ hacc
      intro x hx
      obtain ⟨hv, hb, hr, rs, re, hrs, hre, hrsS, hreE, hlc, hts⟩ := hx
      have hmemdf : ∀ y, y ∈ List.insertionSort tsLe
          ((List.insertionSort recLe df).filter (fun r => decide (recKey r = k))) →
          y ∈ df ∧ recKey y = k := by
        intro y hy
        have hy2 := (List.perm_insertionSort tsLe _).mem_iff.mp hy
        have hy3 := List.mem_filter.mp hy2
        refine ⟨(List.perm_insertionSort recLe df).mem_iff.mp hy3.1, ?_⟩
        have hy4 := hy3.2
        simpa using hy4
      obtain ⟨hrsdf, hrsk⟩ := hmemdf rs hrs
      obtain ⟨hredf, hrek⟩ := hmemdf re hre
      have hrsv : rs.vehicle = k.1 := by rw [← hrsk]; rfl
      have hrsb : rs.block = k.2.1 := by rw [← hrsk]; rfl
      have hrsr : rs.route = k.2.2 := by rw [← hrsk]; rfl
      have hrev : re.vehicle = k.1 := by rw [← hrek]; rfl
      have hreb : re.block = k.2.1 := by rw [← hrek]; rfl
      have hrer : re.route = k.2.2 := by rw [← hrek]; rfl
      exact ⟨rs, re, hrsdf, hredf, by rw [hrsv, hv], by rw [hrsb, hb], by rw [hrsr, hr],
        by rw [hrev, hv], by rw [hreb, hb], by rw [hrer, hr], hrsS, hreE, hlc, hts⟩
    · intro x hx
      cases hx
  exact hall e he2

/-- Witness for C10: the single event of a one-loop input, matched with
its start record at 100 and end record at 200. -/
theorem claim_C10_witness :
    ∃ rs re, rs ∈ [(⟨7, 3, 55, 1, "S", "L", 100⟩ : Record), ⟨7, 3, 55, 1, "E", "L", 200⟩]
      ∧ re ∈ [(⟨7, 3, 55, 1, "S", "L", 100⟩ : Record), ⟨7, 3, 55, 1, "E", "L", 200⟩]
      ∧ rs.vehicle = ((get_loop_events [⟨7, 3, 55, 1, "S", "L", 100⟩,
          ⟨7, 3, 55, 1, "E", "L", 200⟩] 4 "S" "E").getD 0 dummyEvent).vehicle
      ∧ rs.block = ((get_loop_events [⟨7, 3, 55, 1, "S", "L", 100⟩,
          ⟨7, 3, 55, 1, "E", "L", 200⟩] 4 "S" "E").getD 0 dummyEvent).block
      ∧ rs.route = ((get_loop_events [⟨7, 3, 55, 1, "S", "L", 100⟩,
          ⟨7, 3, 55, 1, "E", "L", 200⟩] 4 "S" "E").getD 0 dummyEvent).route
      ∧ re.vehicle = ((get_loop_events [⟨7, 3, 55, 1, "S", "L", 100⟩,
          ⟨7, 3, 55, 1, "E", "L", 200⟩] 4 "S" "E").getD 0 dummyEvent).vehicle
      ∧ re.block = ((get_loop_events [⟨7, 3, 55, 1, "S", "L", 100⟩,
          ⟨7, 3, 55, 1, "E", "L", 200⟩] 4 "S" "E").getD 0 dummyEvent).block
      ∧ re.route = ((get_loop_events [⟨7, 3, 55, 1, "S", "L", 100⟩,
          ⟨7, 3, 55, 1, "E", "L", 200⟩] 4 "S" "E").getD 0 dummyEvent).route
      ∧ rs.stopName = "S" ∧ re.stopName = "E"
      ∧ ((get_loop_events [⟨7, 3, 55, 1, "S", "L", 100⟩,
          ⟨7, 3, 55, 1, "E", "L", 200⟩] 4 "S" "E").getD 0 dummyEvent).loop_completed_at
          = re.timestamp
      ∧ rs.timestamp ≤ re.timestamp := by
  have hlen : 0 < (get_loop_events [(⟨7, 3, 55, 1, "S", "L", 100⟩ : Record),
      ⟨7, 3, 55, 1, "E", "L", 200⟩] 4 "S" "E").length := by decide
  have hg : (get_loop_events [(⟨7, 3, 55, 1, "S", "L", 100⟩ : Record),
      ⟨7, 3, 55, 1, "E", "L", 200⟩] 4 "S" "E").getD 0 dummyEvent
      = (get_loop_events [(⟨7, 3, 55, 1, "S", "L", 100⟩ : Record),
        ⟨7, 3, 55, 1, "E", "L", 200⟩] 4 "S" "E").get ⟨0, hlen⟩ := by
    rw [List.getD_eq_getElem?_getD, List.getElem?_eq_getElem hlen, Option.getD_some,
      List.get_eq_getElem]
  rw [hg]
  exact claim_C10 _ 4 "S" "E" _ (List.get_mem _ _ _)
